import Mathlib

/-
Verification development for the myspots category-hierarchy resolution and
KML export pipeline.

The Python source is shallowly embedded as executable Lean definitions:

* `DiGraph` models the networkx `DiGraph` as used by the code: an
  insertion-ordered node list (each node id paired with its attribute record,
  `none` when the node was created implicitly by `add_edge` and therefore has
  no attributes — attribute lookup on such a node raises `KeyError` in
  Python, modelled as `none`), plus an insertion-ordered edge list
  (parent, child).
* `get_category_tree` embeds `myspots.utils.get_category_tree` (and the
  structurally identical `NotionMySpotsStore.category_graph`): one node per
  record, one edge `parent -> id` per record with a present parent.
* The parent walks in `get_root_categories` / `get_root_category_mapping`
  are unbounded `while` loops in the source.  They are embedded as
  fuel-indexed functions (`fwalk`); a result of `none` means the loop has
  not exited within the given fuel.  A walk that returns `none` for every
  fuel therefore never exits, i.e. the Python loop diverges.
* `write_kml` embeds the `write-kml` CLI command: pandas `NaN`-able fields
  are `Option` values (a pandas `x == True` test is `x == some true`,
  `pd.isna x` is `x = none`), `DataFrame.explode` / left-merge are
  `explodeCats` / `mkRow`, and the folder dict keyed by name is a list of
  folders updated at the matching name (folder names are pairwise distinct
  in every constructed document, so dict semantics coincide).
-/

/-- Attribute record attached by `add_node`: the category display name and
the optional Google style icon code (an airtable/notion field that may be
missing, i.e. `NaN`). -/
structure NodeAttrs where
  name : String
  google_style_icon_code : Option String
deriving DecidableEq, Repr

/-- The category graph: insertion-ordered nodes (id, attributes; `none`
attributes for nodes created implicitly by `add_edge`) and insertion-ordered
directed edges (parent, child). -/
structure DiGraph where
  nodes : List (String × Option NodeAttrs)
  edges : List (String × String)
deriving DecidableEq, Repr

/-- networkx `add_node`: update the attributes if the node exists, else
append it. -/
def addNode (g : DiGraph) (v : String) (a : NodeAttrs) : DiGraph :=
  if g.nodes.any (fun p => p.1 == v) then
    ⟨g.nodes.map (fun p => if p.1 == v then (v, some a) else p), g.edges⟩
  else
    ⟨g.nodes ++ [(v, some a)], g.edges⟩

/-- networkx implicit node creation: an endpoint of `add_edge` that is not
yet a node is appended with no attributes. -/
def ensureNode (g : DiGraph) (v : String) : DiGraph :=
  if g.nodes.any (fun p => p.1 == v) then g else ⟨g.nodes ++ [(v, none)], g.edges⟩

/-- networkx `add_edge u v`: make sure both endpoints exist (in order), then
record the edge once. -/
def addEdge (g : DiGraph) (u v : String) : DiGraph :=
  let g1 := ensureNode (ensureNode g u) v
  if (u, v) ∈ g1.edges then g1 else ⟨g1.nodes, g1.edges ++ [(u, v)]⟩

/-- First predecessor of `v` (the source of the first edge into `v`, in edge
insertion order): `list(graph.predecessors(v))[0]` guarded by
`in_degree(v) > 0` in `get_root_categories`. -/
def parentOf (g : DiGraph) (v : String) : Option String :=
  ((g.edges.filter (fun e => e.2 == v)).head?).map (fun e => e.1)

/-- Last predecessor of `v`: the walk in `get_root_category_mapping` extends
`path_to_root` with all predecessors and continues from the final element,
i.e. from the source of the last edge into `v`. -/
def lastParentOf (g : DiGraph) (v : String) : Option String :=
  ((g.edges.filter (fun e => e.2 == v)).getLast?).map (fun e => e.1)

/-- `in_degree` of a node, as used by the loop guards. -/
def inDegree (g : DiGraph) (v : String) : Nat :=
  (g.edges.filter (fun e => e.2 == v)).length

/-- `n` successive applications of a step function `f` (the abstract parent
chain): `fiter f n c` is the node reached from `c` after exactly `n` parent
steps, `none` if a step has no parent. -/
def fiter (f : String → Option String) : Nat → String → Option String
  | 0, c => some c
  | n + 1, c =>
    match f c with
    | none => none
    | some p => fiter f n p

/-- The source's `while` walk, fuel-indexed: follow `f` until a node with no
parent is reached (returning it), or the fuel runs out (`none`).  The Python
loop has no fuel; `fwalk f fuel c = none` for every `fuel` means the Python
loop never exits. -/
def fwalk (f : String → Option String) : Nat → String → Option String
  | 0, c =>
    match f c with
    | none => some c
    | some _ => none
  | n + 1, c =>
    match f c with
    | none => some c
    | some p => fwalk f n p

/-- Fuel that provably suffices for every terminating walk: one more than
the number of edges (every non-initial node visited by a walk is an edge
source, so a longer repetition-free walk is impossible). -/
def walkBound (g : DiGraph) : Nat := g.edges.length + 1

/-- The root walk of `get_root_categories`
(`while in_degree > 0: current := predecessors(current)[0]`). -/
def rootWalk (g : DiGraph) (fuel : Nat) (c : String) : Option String :=
  fwalk (parentOf g) fuel c

/-- The root walk of `get_root_category_mapping` (extend `path_to_root` with
all predecessors, continue from the last). -/
def mappingWalk (g : DiGraph) (fuel : Nat) (c : String) : Option String :=
  fwalk (lastParentOf g) fuel c

/-- Acyclicity of the parent chain of `g`: no node returns to itself after a
positive number of first-parent steps. -/
def Acyclic (g : DiGraph) : Prop :=
  ∀ v n, 0 < n → fiter (parentOf g) n v ≠ some v

/-- First-occurrence deduplication (the order-determinate model of Python's
`list(set(xs))` and of pandas `Series.unique`). -/
def uniqueFirstAux (seen : List String) : List String → List String
  | [] => []
  | a :: rest =>
    if a ∈ seen then uniqueFirstAux seen rest
    else a :: uniqueFirstAux (a :: seen) rest

/-- First-occurrence deduplication of a list. -/
def uniqueFirst (l : List String) : List String := uniqueFirstAux [] l

/-- The accumulation loop of `get_root_categories`: walk every referenced
category id to its root, collecting the roots in order; `none` if any walk
fails to exit within the fuel. -/
def collectRoots (g : DiGraph) (fuel : Nat) : List String → Option (List String)
  | [] => some []
  | c :: rest =>
    match rootWalk g fuel c with
    | none => none
    | some r =>
      match collectRoots g fuel rest with
      | none => none
      | some rs => some (r :: rs)

/-- `get_root_categories` (myspots/__init__.py): `["Uncategorized"]` for a
place with no category references, otherwise the deduplicated list of root
ancestors of the referenced category ids. -/
def get_root_categories (g : DiGraph) (refs : List String) (fuel : Nat) :
    Option (List String) :=
  if refs.isEmpty then some ["Uncategorized"]
  else
    match collectRoots g fuel refs with
    | none => none
    | some roots => some (uniqueFirst roots)

/-- One exploded row of the categories dataframe: id, display name, optional
icon code, optional parent id. -/
structure CategoryRecord where
  airtable_record_id : String
  category : String
  google_style_icon_code : Option String
  parent : Option String
deriving DecidableEq, Repr

/-- `get_category_tree` (myspots/utils.py), also
`NotionMySpotsStore.category_graph`: one node per record carrying name and
icon code, one edge `parent -> id` per record whose parent is present.  A
parent id that names no record is silently added as an attribute-less
node by `add_edge`. -/
def get_category_tree (records : List CategoryRecord) : DiGraph :=
  records.foldl
    (fun g r =>
      let g1 := addNode g r.airtable_record_id ⟨r.category, r.google_style_icon_code⟩
      match r.parent with
      | none => g1
      | some p => addEdge g1 p r.airtable_record_id)
    ⟨[], []⟩

/-- One row of the root-category mapping dataframe built by
`get_root_category_mapping`. -/
structure CatRow where
  category_id : String
  category_name : String
  category_root_id : String
  category_root_name : String
  google_style_icon_code : Option String
deriving DecidableEq, Repr

/-- Attribute lookup `graph.nodes[v]` followed by key access: `none` when
the node is absent or was created without attributes (Python `KeyError`). -/
def nodeData (g : DiGraph) (v : String) : Option NodeAttrs :=
  match g.nodes.find? (fun p => p.1 == v) with
  | none => none
  | some p => p.2

/-- One record of `get_root_category_mapping`'s loop body: walk `node` to
its root, then read the display names and icon code from the node
attributes.  `none` models either the walk never exiting or a `KeyError` on
an attribute-less node. -/
def mappingRow (g : DiGraph) (node : String) : Option CatRow :=
  match mappingWalk g (walkBound g) node with
  | none => none
  | some root =>
    match nodeData g root, nodeData g node with
    | some rootAttrs, some nodeAttrs =>
      some ⟨node, nodeAttrs.name, root, rootAttrs.name, nodeAttrs.google_style_icon_code⟩
    | _, _ => none

/-- Sequence `mappingRow` over a list of node ids. -/
def mappingRows (g : DiGraph) : List String → Option (List CatRow)
  | [] => some []
  | v :: rest =>
    match mappingRow g v, mappingRows g rest with
    | some r, some rs => some (r :: rs)
    | _, _ => none

/-- `get_root_category_mapping` (myspots/utils.py): build the category tree
and produce one row per graph node (in insertion order) mapping it to its
root id and root display name. -/
def get_root_category_mapping (records : List CategoryRecord) : Option (List CatRow) :=
  let g := get_category_tree records
  mappingRows g (g.nodes.map (fun p => p.1))

/-- The fallback style id `icon-1899-757575-nodesc` (generic grey pin). -/
def fallbackStyleId : String := "icon-1899-757575-nodesc"

/-- Style id composed from an icon code and a colour band, as in
`f"icon-{code}-{color}-nodesc"`. -/
def styleId (code color : String) : String :=
  "icon-" ++ code ++ "-" ++ color ++ "-nodesc"

/-- The four colour bands iterated when defining styles (blue, yellow,
green, grey). -/
def iconColors : List String := ["0288D1", "F9A825", "558B2F", "757575"]

/-- `get_placemark_style` (myspots/__init__.py): first-match colour band
over the flag set (Favorite → yellow, Queued → green, Visited → blue, else
grey), composed with the icon code. -/
def get_placemark_style (flags : List String) (google_style_icon_code : String) :
    String :=
  let icon_color :=
    if "Favorite" ∈ flags then "F9A825"
    else if "Queued" ∈ flags then "558B2F"
    else if "Visited" ∈ flags then "0288D1"
    else "757575"
  "#" ++ styleId google_style_icon_code icon_color

/-- One airtable place record, as consumed by `write-kml` (`NaN`-able
checkbox columns are `Option Bool`; a missing category list is `[]`;
coordinates are opaque pass-through values). -/
structure PlaceRecord where
  id : Nat
  name : String
  latitude : Int
  longitude : Int
  primary_category : List String
  is_visited : Option Bool
  is_queued : Option Bool
  is_favorite : Option Bool
  is_lame : Option Bool
  is_perm_closed : Option Bool
deriving DecidableEq, Repr

/-- One row of the exploded-and-merged places dataframe produced by
`get_places`. -/
structure PlaceRow where
  id : Nat
  name : String
  latitude : Int
  longitude : Int
  is_visited : Option Bool
  is_queued : Option Bool
  is_favorite : Option Bool
  is_lame : Option Bool
  is_perm_closed : Option Bool
  category_root_name : Option String
  google_style_icon_code : Option String
deriving DecidableEq, Repr

/-- pandas `explode` on the `primary_category` column: an empty list
explodes to a single `NaN` row, a non-empty list to one row per element. -/
def explodeCats (cats : List String) : List (Option String) :=
  match cats with
  | [] => [none]
  | l => l.map some

/-- One merged row: left-merge of an exploded place row against the
categories dataframe on `primary_category = category_id`; an unmatched (or
`NaN`) key leaves the category columns `NaN`. -/
def mkRow (df : List CatRow) (q : PlaceRecord) (c : Option String) : PlaceRow :=
  let m : Option CatRow :=
    match c with
    | none => none
    | some cid => df.find? (fun r => r.category_id == cid)
  ⟨q.id, q.name, q.latitude, q.longitude,
    q.is_visited, q.is_queued, q.is_favorite, q.is_lame, q.is_perm_closed,
    match m with | none => none | some r => some r.category_root_name,
    match m with | none => none | some r => r.google_style_icon_code⟩

/-- All merged rows contributed by one place record. -/
def rowsOfPlace (df : List CatRow) (q : PlaceRecord) : List PlaceRow :=
  (explodeCats q.primary_category).map (mkRow df q)

/-- `explode("primary_category")` followed by the left merge of
`get_places`, rows in place order. -/
def explodeMerge (df : List CatRow) : List PlaceRecord → List PlaceRow
  | [] => []
  | q :: rest => rowsOfPlace df q ++ explodeMerge df rest

/-- `get_places` (myspots/utils.py): the exploded places dataframe merged
with the root-category mapping. -/
def get_places (catRecords : List CategoryRecord) (placeRecords : List PlaceRecord) :
    Option (List PlaceRow) :=
  match get_root_category_mapping catRecords with
  | none => none
  | some df => some (explodeMerge df placeRecords)

/-- A KML placemark: stringified place id, name, style reference, point
geometry in (longitude, latitude) order. -/
structure Placemark where
  id : String
  name : String
  styleUrl : String
  longitude : Int
  latitude : Int
deriving DecidableEq, Repr

/-- A KML folder: id and name are both the category name; placemarks in
insertion order; visibility set during finalisation. -/
structure Folder where
  id : String
  name : String
  placemarks : List Placemark
  visibility : Nat
deriving DecidableEq, Repr

/-- A KML style definition (identified by its id; the icon href is the same
constant for every style). -/
structure KmlStyle where
  id : String
deriving DecidableEq, Repr

/-- The assembled KML document: root container with folders, appended style
definitions, root visibility. -/
structure KmlDoc where
  folders : List Folder
  styles : List KmlStyle
  rootVisibility : Nat
deriving DecidableEq, Repr

/-- The colour chain of `write_kml`'s marker loop (`tup.is_favorite == True`
→ yellow, else `is_queued` → green, else `is_visited` → blue, else grey). -/
def cliIconColor (is_favorite is_queued is_visited : Option Bool) : String :=
  if is_favorite == some true then "F9A825"
  else if is_queued == some true then "558B2F"
  else if is_visited == some true then "0288D1"
  else "757575"

/-- The style reference of one marker: the fallback when `--no-styles` is
set or the row's icon code is `NaN`, otherwise the icon code composed with
the first-match colour band. -/
def placeStyleUrl (no_styles : Bool) (tup : PlaceRow) : String :=
  match no_styles, tup.google_style_icon_code with
  | true, _ => "#" ++ fallbackStyleId
  | _, none => "#" ++ fallbackStyleId
  | false, some code =>
    "#" ++ styleId code (cliIconColor tup.is_favorite tup.is_queued tup.is_visited)

/-- The placemark constructed for one merged row. -/
def mkPlacemark (no_styles : Bool) (tup : PlaceRow) : Placemark :=
  ⟨toString tup.id, tup.name, placeStyleUrl no_styles tup, tup.longitude, tup.latitude⟩

/-- The exclusion test of the marker loop:
`tup.is_perm_closed == True or tup.is_lame == True`. -/
def excludedRow (tup : PlaceRow) : Bool :=
  tup.is_perm_closed == some true || tup.is_lame == some true

/-- The same exclusion test expressed on the originating place record. -/
def excludedPlace (q : PlaceRecord) : Bool :=
  q.is_perm_closed == some true || q.is_lame == some true

/-- The folder key of one row: `"uncategorized"` when the root name is
`NaN`, else the root name. -/
def rowFolderName (tup : PlaceRow) : String :=
  match tup.category_root_name with
  | none => "uncategorized"
  | some n => n

/-- `folders[category].append(p)`: append the placemark to the folder with
the given name (folder names are pairwise distinct in every constructed
document, so this matches the Python dict lookup). -/
def addToFolders : List Folder → String → Placemark → List Folder
  | [], _, _ => []
  | f :: rest, nm, p =>
    if f.name == nm then ⟨f.id, f.name, f.placemarks ++ [p], f.visibility⟩ :: rest
    else f :: addToFolders rest nm p

/-- The per-category style definitions appended by `write_kml`: for every
categories-dataframe row with a present icon code, one style per colour
band. -/
def perCategoryStyles : List CatRow → List KmlStyle
  | [] => []
  | r :: rest =>
    (match r.google_style_icon_code with
     | none => []
     | some code => iconColors.map (fun c => ⟨styleId code c⟩)) ++ perCategoryStyles rest

/-- All style definitions appended to the document: the fallback style
always, plus the per-category styles unless `--no-styles`. -/
def styleDefs (no_styles : Bool) (df : List CatRow) : List KmlStyle :=
  ⟨fallbackStyleId⟩ :: (if no_styles then [] else perCategoryStyles df)

/-- The folder dict after initialisation: the `"uncategorized"` folder
first, then one folder per unique root-category name, all created eagerly
before any place is processed. -/
def initialFolders (rootNames : List String) : List Folder :=
  ⟨"uncategorized", "uncategorized", [], 1⟩ :: rootNames.map (fun n => ⟨n, n, [], 1⟩)

/-- The marker loop: iterate the merged place rows in order, skip excluded
rows, and append a placemark to the row's folder. -/
def insertPlaces (no_styles : Bool) (rows : List PlaceRow) (fs : List Folder) :
    List Folder :=
  rows.foldl
    (fun fs tup =>
      if excludedRow tup then fs
      else addToFolders fs (rowFolderName tup) (mkPlacemark no_styles tup))
    fs

/-- Finalisation: set every folder's visibility. -/
def setVisibility (vis : Nat) (fs : List Folder) : List Folder :=
  fs.map (fun f => ⟨f.id, f.name, f.placemarks, vis⟩)

/-- The document assembled by `write_kml` from an already-computed
categories dataframe. -/
def buildDoc (no_styles default_invisible : Bool) (categories_df : List CatRow)
    (placeRecords : List PlaceRecord) : KmlDoc :=
  ⟨setVisibility (if default_invisible then 0 else 1)
      (insertPlaces no_styles (explodeMerge categories_df placeRecords)
        (initialFolders (uniqueFirst (categories_df.map (fun r => r.category_root_name))))),
    styleDefs no_styles categories_df, 1⟩

/-- The `write-kml` command (myspots/cli.py): build the root-category
mapping (failing if it fails), then assemble the document. -/
def write_kml (no_styles default_invisible : Bool) (catRecords : List CategoryRecord)
    (placeRecords : List PlaceRecord) : Option KmlDoc :=
  match get_root_category_mapping catRecords with
  | none => none
  | some categories_df => some (buildDoc no_styles default_invisible categories_df placeRecords)

/-- Number of placemarks with the given id across a folder list. -/
def totalCount (fs : List Folder) (pid : String) : Nat :=
  (fs.map (fun f => (f.placemarks.filter (fun m => m.id == pid)).length)).sum

/-- Number of placemarks with the given id in the whole document. -/
def countPlacemarks (doc : KmlDoc) (pid : String) : Nat :=
  totalCount doc.folders pid

/-- Number of placemarks with the given id filed in the folder with the
given name. -/
def countInFolder (doc : KmlDoc) (fname pid : String) : Nat :=
  totalCount (doc.folders.filter (fun f => f.name == fname)) pid

/-- Every placemark of the document carries the fallback style reference. -/
def markersAllFallback (doc : KmlDoc) : Bool :=
  doc.folders.all (fun f => f.placemarks.all (fun m => m.styleUrl == "#" ++ fallbackStyleId))

/-- Every placemark's style reference points at some appended style
definition. -/
def stylesCoverMarkers (doc : KmlDoc) : Bool :=
  doc.folders.all (fun f =>
    f.placemarks.all (fun m => doc.styles.any (fun s => m.styleUrl == "#" ++ s.id)))

/-- Category table `A (root), B -> A, C -> B` used by the spec's examples. -/
def exampleRecords : List CategoryRecord :=
  [⟨"A", "CatA", some "1001", none⟩,
   ⟨"B", "CatB", some "1002", some "A"⟩,
   ⟨"C", "CatC", some "1003", some "B"⟩]

/-- The category graph of `exampleRecords`. -/
def exampleGraph : DiGraph := get_category_tree exampleRecords

/-- Cyclic category table: `A`'s parent is `B` and `B`'s parent is `A`. -/
def cycleRecords : List CategoryRecord :=
  [⟨"A", "CatA", none, some "B"⟩, ⟨"B", "CatB", none, some "A"⟩]

/-- The (cyclic) category graph of `cycleRecords`. -/
def cycleGraph : DiGraph := get_category_tree cycleRecords

/-- A category table with an orphan parent reference: record `c1` declares
parent `p99`, and no record has id `p99`. -/
def orphanRecords : List CategoryRecord :=
  [⟨"c1", "Child", some "1234", some "p99"⟩]


/-- A place flagged `Permanently Closed` that references three categories. -/
def c6Place : PlaceRecord :=
  ⟨1, "Closed place", 10, 20, ["A", "B", "C"], none, none, none, none, some true⟩

/-- The export document for `exampleRecords` and the single excluded place. -/
def c6Doc : KmlDoc := (write_kml false false exampleRecords [c6Place]).getD ⟨[], [], 1⟩

/-- Category table in which `B` and `C` are distinct categories sharing the
single root `A`. -/
def c7Records : List CategoryRecord :=
  [⟨"A", "CatA", some "1001", none⟩,
   ⟨"B", "CatB", some "1002", some "A"⟩,
   ⟨"C", "CatC", some "1003", some "A"⟩]

/-- A place referencing the two shared-root categories `B` and `C`. -/
def c7Place : PlaceRecord :=
  ⟨1, "Shared root place", 10, 20, ["B", "C"], none, none, none, none, none⟩

/-- The export document for the shared-root input. -/
def c7Doc : KmlDoc := (write_kml false false c7Records [c7Place]).getD ⟨[], [], 1⟩

/-- Category table with two separate root trees `A` (child `B`) and `D`
(child `E`). -/
def adRecords : List CategoryRecord :=
  [⟨"A", "CatA", some "1001", none⟩,
   ⟨"D", "CatD", some "1004", none⟩,
   ⟨"B", "CatB", some "1002", some "A"⟩,
   ⟨"E", "CatE", some "1005", some "D"⟩]

/-- A place referencing two categories whose roots are `A` and `D`. -/
def adPlace : PlaceRecord :=
  ⟨1, "Two roots place", 10, 20, ["B", "E"], none, none, none, none, none⟩

/-- The export document for the two-root input. -/
def adDoc : KmlDoc := (write_kml false false adRecords [adPlace]).getD ⟨[], [], 1⟩

/-- A place with flags and a styled category, exported under `--no-styles`. -/
def c8Place : PlaceRecord :=
  ⟨2, "Styled place", 1, 2, ["C"], some true, none, some true, none, none⟩

/-- The `--no-styles` export document for `exampleRecords` and `c8Place`. -/
def c8Doc : KmlDoc := (write_kml true false exampleRecords [c8Place]).getD ⟨[], [], 1⟩

/-- A category table with the single root category `A` (named `CatA`). -/
def c9Records : List CategoryRecord := [⟨"A", "CatA", some "1001", none⟩]

/-- The export document for `c9Records` and zero places. -/
def c9Doc : KmlDoc := (write_kml false false c9Records []).getD ⟨[], [], 1⟩

/-- The root-category mapping of `c9Records`. -/
def c9Df : List CatRow := (get_root_category_mapping c9Records).getD []

/-- A favourite place referencing the styled category `B`. -/
def c10Place : PlaceRecord :=
  ⟨3, "Favorite place", 1, 2, ["B"], none, none, some true, none, none⟩

/-- The styled export document for `exampleRecords` and `c10Place`. -/
def c10Doc : KmlDoc := (write_kml false false exampleRecords [c10Place]).getD ⟨[], [], 1⟩

theorem fiter_add (f : String → Option String) (m n : Nat) (c : String) :
    fiter f (m + n) c = (fiter f m c).bind (fun v => fiter f n v) := by
  induction m generalizing c with
  | zero => simp [fiter]
  | succ m ih =>
    have h1 : m + 1 + n = (m + n) + 1 := by omega
    rw [h1]
    cases hfc : f c with
    | none => simp [fiter, hfc]
    | some p => simp [fiter, hfc, ih]

theorem fiter_one (f : String → Option String) (v : String) : fiter f 1 v = f v := by
  cases hfv : f v <;> simp [fiter, hfv]

theorem fiter_succ_right (f : String → Option String) (n : Nat) (c : String) :
    fiter f (n + 1) c = (fiter f n c).bind f := by
  rw [fiter_add f n 1 c]
  cases fiter f n c <;> simp [fiter_one]

theorem fwalk_none (f : String → Option String) (fuel : Nat) :
    ∀ c, fwalk f fuel c = none → ∀ n, n ≤ fuel →
      ∃ v, fiter f n c = some v ∧ f v ≠ none := by
  induction fuel with
  | zero =>
    intro c h n hn
    have hn0 : n = 0 := Nat.le_zero.mp hn
    subst hn0
    cases hfc : f c with
    | none => simp [fwalk, hfc] at h
    | some p => exact ⟨c, rfl, by simp [hfc]⟩
  | succ fuel ih =>
    intro c h n hn
    cases hfc : f c with
    | none => simp [fwalk, hfc] at h
    | some p =>
      have hw : fwalk f fuel p = none := by simpa [fwalk, hfc] using h
      cases n with
      | zero => exact ⟨c, rfl, by simp [hfc]⟩
      | succ n' =>
        obtain ⟨v, hv, hfv⟩ := ih p hw n' (Nat.succ_le_succ_iff.mp hn)
        exact ⟨v, by simp [fiter, hfc, hv], hfv⟩

theorem fwalk_some (f : String → Option String) (fuel : Nat) :
    ∀ c r, fwalk f fuel c = some r →
      f r = none ∧ ∃ n, n ≤ fuel ∧ fiter f n c = some r := by
  induction fuel with
  | zero =>
    intro c r h
    cases hfc : f c with
    | none =>
      have hcr : c = r := by simpa [fwalk, hfc] using h
      subst hcr
      exact ⟨hfc, 0, Nat.le_refl 0, rfl⟩
    | some p => simp [fwalk, hfc] at h
  | succ fuel ih =>
    intro c r h
    cases hfc : f c with
    | none =>
      have hcr : c = r := by simpa [fwalk, hfc] using h
      subst hcr
      exact ⟨hfc, 0, Nat.zero_le _, rfl⟩
    | some p =>
      have h' : fwalk f fuel p = some r := by simpa [fwalk, hfc] using h
      obtain ⟨h1, n, hn, h2⟩ := ih p r h'
      exact ⟨h1, n + 1, Nat.succ_le_succ hn, by simp [fiter, hfc, h2]⟩

theorem fiter_src (f : String → Option String) (src : List String)
    (hsrc : ∀ c p, f c = some p → p ∈ src) (n : Nat) (c v : String)
    (h : fiter f (n + 1) c = some v) : v ∈ src := by
  rw [fiter_succ_right] at h
  cases hit : fiter f n c with
  | none => rw [hit] at h; simp at h
  | some w =>
    rw [hit] at h
    simp only [Option.some_bind] at h
    exact hsrc w v h

theorem fwalk_total (f : String → Option String) (src : List String)
    (hsrc : ∀ c p, f c = some p → p ∈ src)
    (hacyc : ∀ v n, 0 < n → fiter f n v ≠ some v) (c : String) :
    ∃ r, fwalk f (src.length + 1) c = some r := by
  cases hw : fwalk f (src.length + 1) c with
  | some r => exact ⟨r, rfl⟩
  | none =>
    exfalso
    have htr := fwalk_none f (src.length + 1) c hw
    have key : ∀ a b : Nat, 1 ≤ a → b ≤ src.length + 1 → a < b →
        fiter f a c = fiter f b c → False := by
      intro a b _ hb hab hfe
      obtain ⟨v, hv, _⟩ := htr a (by omega)
      have hvb : fiter f b c = some v := by rw [← hfe, hv]
      have hsplit : fiter f b c = (fiter f a c).bind (fun w => fiter f (b - a) w) := by
        have hba : b = a + (b - a) := by omega
        calc fiter f b c = fiter f (a + (b - a)) c := by rw [← hba]
          _ = (fiter f a c).bind (fun w => fiter f (b - a) w) := fiter_add f a (b - a) c
      rw [hv] at hsplit
      simp only [Option.some_bind] at hsplit
      rw [hvb] at hsplit
      exact hacyc v (b - a) (by omega) hsplit.symm
    have hcard : src.toFinset.card < (Finset.Icc 1 (src.length + 1)).card := by
      rw [Nat.card_Icc]
      have := src.toFinset_card_le
      omega
    have hmaps : ∀ a ∈ Finset.Icc 1 (src.length + 1),
        (fiter f a c).getD "" ∈ src.toFinset := by
      intro a ha
      rw [Finset.mem_Icc] at ha
      obtain ⟨v, hv, _⟩ := htr a ha.2
      obtain ⟨a', rfl⟩ : ∃ a', a = a' + 1 := ⟨a - 1, by omega⟩
      rw [hv]
      exact List.mem_toFinset.mpr (fiter_src f src hsrc a' c v hv)
    obtain ⟨i, hi, j, hj, hne, heq⟩ :=
      Finset.exists_ne_map_eq_of_card_lt_of_maps_to hcard hmaps
    rw [Finset.mem_Icc] at hi hj
    obtain ⟨vi, hvi, _⟩ := htr i hi.2
    obtain ⟨vj, hvj, _⟩ := htr j hj.2
    have hvij : vi = vj := by
      have := heq
      rw [hvi, hvj] at this
      simpa using this
    have hfe : fiter f i c = fiter f j c := by rw [hvi, hvj, hvij]
    rcases Nat.lt_or_ge i j with hij | hij
    · exact key i j hi.1 hj.2 hij hfe
    · have hij' : j < i := by omega
      exact key j i hj.1 hi.2 hij' hfe.symm

theorem acyclic_of_dies (f : String → Option String) (m : Nat)
    (hdies : ∀ v, fiter f m v = none) :
    ∀ v n, 0 < n → fiter f n v ≠ some v := by
  intro v n hn hcyc
  have hmul : ∀ k, fiter f (k * n) v = some v := by
    intro k
    induction k with
    | zero => simp [fiter]
    | succ k ih =>
      have hkn : (k + 1) * n = k * n + n := by ring
      rw [hkn, fiter_add, ih]
      simpa using hcyc
  have h1 : fiter f (m * n) v = some v := hmul m
  have h2 : fiter f (m * n) v = none := by
    have hge : m ≤ m * n := by
      calc m = m * 1 := (Nat.mul_one m).symm
        _ ≤ m * n := Nat.mul_le_mul_left m hn
    have hmn : m * n = m + (m * n - m) := by omega
    rw [hmn, fiter_add, hdies v]
    rfl
  rw [h1] at h2
  exact Option.noConfusion h2

theorem head?_mem {α : Type} (l : List α) (a : α) (h : l.head? = some a) : a ∈ l := by
  cases l with
  | nil => simp at h
  | cons x xs =>
    have hxa : x = a := by simpa using h
    subst hxa
    exact List.mem_cons_self x xs

theorem parentOf_src (g : DiGraph) (c p : String) (h : parentOf g c = some p) :
    p ∈ g.edges.map (fun e => e.1) := by
  unfold parentOf at h
  cases hh : (g.edges.filter (fun e => e.2 == c)).head? with
  | none => rw [hh] at h; simp at h
  | some e =>
    rw [hh] at h
    have hpe : p = e.1 := by simpa using h.symm
    subst hpe
    have he : e ∈ g.edges.filter (fun e => e.2 == c) := head?_mem _ e hh
    exact List.mem_map.mpr ⟨e, List.mem_of_mem_filter he, rfl⟩

theorem rootWalk_total (g : DiGraph) (hacyc : Acyclic g) (c : String) :
    ∃ r, rootWalk g (walkBound g) c = some r := by
  have h := fwalk_total (parentOf g) (g.edges.map (fun e => e.1))
    (parentOf_src g) hacyc c
  simpa [rootWalk, walkBound, List.length_map] using h

theorem exampleGraph_parent_none (v : String) (h1 : v ≠ "B") (h2 : v ≠ "C") :
    parentOf exampleGraph v = none := by
  have he : exampleGraph.edges = [("A", "B"), ("B", "C")] := by decide
  unfold parentOf
  rw [he]
  have hb : (("A", "B").2 == v) = false := by
    simp only [beq_eq_false_iff_ne]
    exact fun hvv => h1 hvv.symm
  have hc : (("B", "C").2 == v) = false := by
    simp only [beq_eq_false_iff_ne]
    exact fun hvv => h2 hvv.symm
  simp [List.filter, hb, hc]

theorem exampleGraph_dies (v : String) : fiter (parentOf exampleGraph) 3 v = none := by
  by_cases hB : v = "B"
  · subst hB; decide
  · by_cases hC : v = "C"
    · subst hC; decide
    · have hp := exampleGraph_parent_none v hB hC
      simp [fiter, hp]

theorem exampleGraph_acyclic : Acyclic exampleGraph :=
  acyclic_of_dies (parentOf exampleGraph) 3 exampleGraph_dies

theorem mem_uniqueFirstAux (l : List String) :
    ∀ seen x, x ∈ uniqueFirstAux seen l ↔ (x ∈ l ∧ x ∉ seen) := by
  induction l with
  | nil => intro seen x; simp [uniqueFirstAux]
  | cons a rest ih =>
    intro seen x
    by_cases ha : a ∈ seen
    · rw [uniqueFirstAux, if_pos ha, ih]
      constructor
      · exact fun ⟨hx, hs⟩ => ⟨List.mem_cons_of_mem a hx, hs⟩
      · rintro ⟨hx, hs⟩
        rcases List.mem_cons.mp hx with rfl | hx'
        · exact absurd ha hs
        · exact ⟨hx', hs⟩
    · rw [uniqueFirstAux, if_neg ha]
      constructor
      · intro hx
        rcases List.mem_cons.mp hx with rfl | hx'
        · exact ⟨List.mem_cons_self x rest, ha⟩
        · obtain ⟨h1, h2⟩ := (ih (a :: seen) x).mp hx'
          exact ⟨List.mem_cons_of_mem a h1,
            fun hs => h2 (List.mem_cons_of_mem a hs)⟩
      · rintro ⟨hx, hs⟩
        rcases List.mem_cons.mp hx with rfl | hx'
        · exact List.mem_cons_self x _
        · by_cases hxa : x = a
          · subst hxa; exact List.mem_cons_self x _
          · exact List.mem_cons_of_mem a ((ih (a :: seen) x).mpr
              ⟨hx', by simp [hxa, hs]⟩)

theorem nodup_uniqueFirstAux (l : List String) :
    ∀ seen, (uniqueFirstAux seen l).Nodup := by
  induction l with
  | nil => intro seen; simp [uniqueFirstAux]
  | cons a rest ih =>
    intro seen
    by_cases ha : a ∈ seen
    · rw [uniqueFirstAux, if_pos ha]; exact ih seen
    · rw [uniqueFirstAux, if_neg ha]
      refine List.nodup_cons.mpr ⟨?_, ih (a :: seen)⟩
      intro hmem
      exact ((mem_uniqueFirstAux rest (a :: seen) a).mp hmem).2 (List.mem_cons_self a seen)

theorem mem_uniqueFirst (l : List String) (x : String) :
    x ∈ uniqueFirst l ↔ x ∈ l := by
  rw [uniqueFirst, mem_uniqueFirstAux]
  simp

theorem nodup_uniqueFirst (l : List String) : (uniqueFirst l).Nodup :=
  nodup_uniqueFirstAux l []

theorem collectRoots_total (g : DiGraph) (fuel : Nat) (refs : List String)
    (h : ∀ c ∈ refs, ∃ r, rootWalk g fuel c = some r) :
    ∃ roots, collectRoots g fuel refs = some roots ∧
      ∀ x, x ∈ roots ↔ ∃ c ∈ refs, rootWalk g fuel c = some x := by
  induction refs with
  | nil => exact ⟨[], rfl, by simp⟩
  | cons c rest ih =>
    obtain ⟨r, hr⟩ := h c (List.mem_cons_self c rest)
    obtain ⟨roots, hroots, hmem⟩ := ih (fun c' hc' => h c' (List.mem_cons_of_mem c hc'))
    refine ⟨r :: roots, ?_, ?_⟩
    · rw [collectRoots, hr, hroots]
    · intro x
      constructor
      · intro hx
        rcases List.mem_cons.mp hx with rfl | hx'
        · exact ⟨c, List.mem_cons_self c rest, hr⟩
        · obtain ⟨c', hc', hw⟩ := (hmem x).mp hx'
          exact ⟨c', List.mem_cons_of_mem c hc', hw⟩
      · rintro ⟨c', hc', hw⟩
        rcases List.mem_cons.mp hc' with rfl | hc''
        · rw [hr] at hw
          exact Option.some_inj.mp hw ▸ List.mem_cons_self x roots
        · exact List.mem_cons_of_mem r ((hmem x).mpr ⟨c', hc'', hw⟩)

/-- C1: for every acyclic category graph, the parent walk of the root
resolver terminates (within the edge-count fuel bound) and yields a node
with no parent that is an ancestor of the start node; `get_root_categories`
returns the deduplicated set of exactly those root ancestors of the
referenced category ids; and on the concrete table `A (root), B → A, C → B`
a place referencing `C` resolves to exactly `["A"]`. -/
theorem c1_acyclic_root_resolution (g : DiGraph) (c : String) (refs : List String)
    (hacyc : Acyclic g) (hne : refs ≠ []) :
    (∃ r, rootWalk g (walkBound g) c = some r ∧ parentOf g r = none ∧
      ∃ n, fiter (parentOf g) n c = some r) ∧
    (∃ res, get_root_categories g refs (walkBound g) = some res ∧ res.Nodup ∧
      ∀ x, x ∈ res ↔ ∃ cid ∈ refs, rootWalk g (walkBound g) cid = some x) ∧
    get_root_categories exampleGraph ["C"] (walkBound exampleGraph) = some ["A"] := by
  refine ⟨?_, ?_, by decide⟩
  · obtain ⟨r, hr⟩ := rootWalk_total g hacyc c
    obtain ⟨hpar, n, _, hiter⟩ := fwalk_some (parentOf g) (walkBound g) c r hr
    exact ⟨r, hr, hpar, n, hiter⟩
  · obtain ⟨roots, hroots, hmem⟩ := collectRoots_total g (walkBound g) refs
      (fun c' _ => rootWalk_total g hacyc c')
    refine ⟨uniqueFirst roots, ?_, nodup_uniqueFirst roots, ?_⟩
    · rw [get_root_categories, if_neg (by simpa [List.isEmpty_iff] using hne), hroots]
    · intro x
      rw [mem_uniqueFirst, hmem]

theorem c1_witness :
    Acyclic exampleGraph ∧ (["C"] : List String) ≠ [] ∧
    get_root_categories exampleGraph ["C"] (walkBound exampleGraph) = some ["A"] :=
  ⟨exampleGraph_acyclic, by decide,
    (c1_acyclic_root_resolution exampleGraph "C" ["C"] exampleGraph_acyclic
      (by decide)).2.2⟩

/-- C2: the claim asks for a `CycleDetected` error on the cycle
`A → B, B → A`, but the source's walk is an unguarded `while` loop with no
iteration cap: on the cyclic graph the loop never exits — for every fuel the
walk from `A` (or `B`) is still running — so `get_root_categories` never
returns (it diverges instead of signalling `CycleDetected`; no cycle
detection exists anywhere in the code). -/
theorem c2_cycle_walk_never_exits (fuel : Nat) :
    rootWalk cycleGraph fuel "A" = none ∧ rootWalk cycleGraph fuel "B" = none ∧
    get_root_categories cycleGraph ["A"] fuel = none := by
  have hA : parentOf cycleGraph "A" = some "B" := by decide
  have hB : parentOf cycleGraph "B" = some "A" := by decide
  have hwalk : ∀ fl, rootWalk cycleGraph fl "A" = none ∧
      rootWalk cycleGraph fl "B" = none := by
    intro fl
    induction fl with
    | zero => exact ⟨by simp [rootWalk, fwalk, hA], by simp [rootWalk, fwalk, hB]⟩
    | succ fl ih =>
      exact ⟨by simp only [rootWalk, fwalk, hA]; exact ih.2,
        by simp only [rootWalk, fwalk, hB]; exact ih.1⟩
  refine ⟨(hwalk fuel).1, (hwalk fuel).2, ?_⟩
  rw [get_root_categories, if_neg (by decide), collectRoots, (hwalk fuel).1]

/-- C3: a place referencing zero categories resolves to exactly the
singleton `["Uncategorized"]`, never the empty set; and whenever the
sentinel is not among the graph's node ids (the reserved-sentinel data
invariant), the returned value contains no real node id. -/
theorem c3_empty_refs_sentinel (g : DiGraph) (fuel : Nat)
    (hfresh : g.nodes.all (fun p => !(p.1 == "Uncategorized")) = true) :
    get_root_categories g [] fuel = some ["Uncategorized"] ∧
    get_root_categories g [] fuel ≠ some [] ∧
    ((get_root_categories g [] fuel).getD []).all
      (fun r => !(g.nodes.any (fun p => p.1 == r))) = true := by
  have h1 : get_root_categories g [] fuel = some ["Uncategorized"] := by
    rw [get_root_categories, if_pos (by decide)]
  refine ⟨h1, by rw [h1]; simp, ?_⟩
  rw [h1]
  simp only [Option.getD_some, List.all_cons, List.all_nil, Bool.and_true]
  simp only [List.all_eq_true] at hfresh
  simp only [Bool.not_eq_true', List.any_eq_false]
  intro p hp
  simpa using hfresh p hp

theorem c3_witness :
    exampleGraph.nodes.all (fun p => !(p.1 == "Uncategorized")) = true ∧
    get_root_categories exampleGraph [] 4 = some ["Uncategorized"] :=
  ⟨by decide, (c3_empty_refs_sentinel exampleGraph 4 (by decide)).1⟩

/-- C4: the claim requires graph construction to fail with a diagnostic
naming an orphan parent reference.  The code does not: `get_category_tree`
on a record whose parent `p99` names no record succeeds, silently adding
`p99` as an attribute-less node; the Notion-path resolver
(`get_root_categories`) then silently reports the orphan id `p99` as the
root; the Airtable-path mapping (`get_root_category_mapping`) fails only
incidentally — a `KeyError` on the missing `name` attribute, a diagnostic
that does not name the orphan reference (modelled as `none`). -/
theorem c4_orphan_parent_not_rejected :
    (get_category_tree orphanRecords).nodes =
      [("c1", some ⟨"Child", some "1234"⟩), ("p99", none)] ∧
    get_root_categories (get_category_tree orphanRecords) ["c1"]
      (walkBound (get_category_tree orphanRecords)) = some ["p99"] ∧
    get_root_category_mapping orphanRecords = none := by
  decide

theorem data_append (s t : String) : (s ++ t).data = s.data ++ t.data := by
  cases s
  cases t
  rfl

theorem styleId_yellow_ne_blue (code : String) :
    "#" ++ styleId code "F9A825" ≠ "#" ++ styleId code "0288D1" := by
  intro h
  have hd := congrArg String.data h
  simp only [styleId, data_append, List.append_assoc] at hd
  simp only [List.cons_append, List.nil_append, List.cons.injEq, true_and] at hd
  have hc := List.append_cancel_left hd
  simp at hc

/-- C5: marker colour selection is first-match in the fixed priority order
Favorite → yellow (`F9A825`), Queued → green (`558B2F`), Visited → blue
(`0288D1`), otherwise grey (`757575`), both in `get_placemark_style` and in
the `write_kml` marker loop (`cliIconColor`); in particular a place flagged
both Favorite and Visited always receives the yellow style and never the
blue one. -/
theorem c5_style_priority (flags : List String) (code : String) :
    ("Favorite" ∈ flags →
      get_placemark_style flags code = "#" ++ styleId code "F9A825") ∧
    ("Favorite" ∉ flags → "Queued" ∈ flags →
      get_placemark_style flags code = "#" ++ styleId code "558B2F") ∧
    ("Favorite" ∉ flags → "Queued" ∉ flags → "Visited" ∈ flags →
      get_placemark_style flags code = "#" ++ styleId code "0288D1") ∧
    ("Favorite" ∉ flags → "Queued" ∉ flags → "Visited" ∉ flags →
      get_placemark_style flags code = "#" ++ styleId code "757575") ∧
    ("Favorite" ∈ flags → "Visited" ∈ flags →
      get_placemark_style flags code = "#" ++ styleId code "F9A825" ∧
      get_placemark_style flags code ≠ "#" ++ styleId code "0288D1") ∧
    (∀ q v : Option Bool, cliIconColor (some true) q v = "F9A825") := by
  refine ⟨?_, ?_, ?_, ?_, ?_, ?_⟩
  · intro hf
    rw [get_placemark_style]
    simp [hf]
  · intro hf hq
    rw [get_placemark_style]
    simp [hf, hq]
  · intro hf hq hv
    rw [get_placemark_style]
    simp [hf, hq, hv]
  · intro hf hq hv
    rw [get_placemark_style]
    simp [hf, hq, hv]
  · intro hf hv
    constructor
    · rw [get_placemark_style]
      simp [hf]
    · rw [get_placemark_style]
      simp only [if_pos hf]
      exact styleId_yellow_ne_blue code
  · intro q v
    rw [cliIconColor]
    simp

theorem c5_witness :
    "Favorite" ∈ (["Favorite", "Visited"] : List String) ∧
    "Visited" ∈ (["Favorite", "Visited"] : List String) ∧
    get_placemark_style ["Favorite", "Visited"] "1234" =
      "#" ++ styleId "1234" "F9A825" ∧
    get_placemark_style ["Favorite", "Visited"] "1234" ≠
      "#" ++ styleId "1234" "0288D1" := by
  obtain ⟨heq, hne⟩ :=
    (c5_style_priority ["Favorite", "Visited"] "1234").2.2.2.2.1 (by decide) (by decide)
  exact ⟨by decide, by decide, heq, hne⟩

theorem write_kml_none (no_styles default_invisible : Bool)
    (catRecords : List CategoryRecord) (placeRecords : List PlaceRecord)
    (h : get_root_category_mapping catRecords = none) :
    write_kml no_styles default_invisible catRecords placeRecords = none := by
  unfold write_kml
  rw [h]

theorem write_kml_some (no_styles default_invisible : Bool)
    (catRecords : List CategoryRecord) (placeRecords : List PlaceRecord)
    (df : List CatRow) (h : get_root_category_mapping catRecords = some df) :
    write_kml no_styles default_invisible catRecords placeRecords =
      some (buildDoc no_styles default_invisible df placeRecords) := by
  unfold write_kml
  rw [h]

theorem addToFolders_names (fs : List Folder) (nm : String) (p : Placemark) :
    (addToFolders fs nm p).map (fun f => f.name) = fs.map (fun f => f.name) := by
  induction fs with
  | nil => rfl
  | cons f rest ih =>
    by_cases hf : (f.name == nm) = true
    · rw [addToFolders, if_pos hf]
      simp
    · rw [addToFolders, if_neg hf]
      simp [ih]

theorem mem_placemarks_addToFolders (fs : List Folder) (nm : String) (p : Placemark)
    (f' : Folder) (m : Placemark) (hf : f' ∈ addToFolders fs nm p)
    (hm : m ∈ f'.placemarks) :
    (∃ f ∈ fs, m ∈ f.placemarks) ∨ m = p := by
  induction fs with
  | nil => simp [addToFolders] at hf
  | cons f rest ih =>
    by_cases hfn : (f.name == nm) = true
    · rw [addToFolders, if_pos hfn] at hf
      rcases List.mem_cons.mp hf with rfl | hf'
      · simp only at hm
        rcases List.mem_append.mp hm with hml | hmr
        · exact Or.inl ⟨f, List.mem_cons_self f rest, hml⟩
        · exact Or.inr (by simpa using hmr)
      · exact Or.inl ⟨f', List.mem_cons_of_mem f hf', hm⟩
    · rw [addToFolders, if_neg hfn] at hf
      rcases List.mem_cons.mp hf with rfl | hf'
      · exact Or.inl ⟨f', List.mem_cons_self f' rest, hm⟩
      · rcases ih hf' with ⟨f0, hf0, hm0⟩ | heq
        · exact Or.inl ⟨f0, List.mem_cons_of_mem f hf0, hm0⟩
        · exact Or.inr heq

theorem insertPlaces_nil (no_styles : Bool) (fs : List Folder) :
    insertPlaces no_styles [] fs = fs := rfl

theorem insertPlaces_cons (no_styles : Bool) (tup : PlaceRow) (rest : List PlaceRow)
    (fs : List Folder) :
    insertPlaces no_styles (tup :: rest) fs =
      insertPlaces no_styles rest
        (if excludedRow tup then fs
         else addToFolders fs (rowFolderName tup) (mkPlacemark no_styles tup)) := rfl

theorem insertPlaces_names (no_styles : Bool) (rows : List PlaceRow) :
    ∀ fs : List Folder,
      (insertPlaces no_styles rows fs).map (fun f => f.name) =
        fs.map (fun f => f.name) := by
  induction rows with
  | nil => intro fs; rfl
  | cons tup rest ih =>
    intro fs
    rw [insertPlaces_cons]
    by_cases hx : excludedRow tup = true
    · rw [if_pos hx, ih]
    · rw [if_neg hx, ih, addToFolders_names]

theorem insertPlaces_mem (no_styles : Bool) (rows : List PlaceRow) :
    ∀ (fs : List Folder) (f' : Folder) (m : Placemark),
      f' ∈ insertPlaces no_styles rows fs → m ∈ f'.placemarks →
      (∃ f ∈ fs, m ∈ f.placemarks) ∨
        ∃ tup ∈ rows, excludedRow tup = false ∧ m = mkPlacemark no_styles tup := by
  induction rows with
  | nil =>
    intro fs f' m hf hm
    exact Or.inl ⟨f', hf, hm⟩
  | cons tup rest ih =>
    intro fs f' m hf hm
    rw [insertPlaces_cons] at hf
    by_cases hx : excludedRow tup = true
    · rw [if_pos hx] at hf
      rcases ih fs f' m hf hm with hl | ⟨t, ht, hxt, hmt⟩
      · exact Or.inl hl
      · exact Or.inr ⟨t, List.mem_cons_of_mem tup ht, hxt, hmt⟩
    · rw [if_neg hx] at hf
      rcases ih _ f' m hf hm with ⟨f0, hf0, hm0⟩ | ⟨t, ht, hxt, hmt⟩
      · rcases mem_placemarks_addToFolders fs _ _ f0 m hf0 hm0 with hl | heq
        · exact Or.inl hl
        · exact Or.inr ⟨tup, List.mem_cons_self tup rest,
            Bool.not_eq_true _ ▸ hx, heq⟩
      · exact Or.inr ⟨t, List.mem_cons_of_mem tup ht, hxt, hmt⟩

theorem totalCount_nil (pid : String) : totalCount [] pid = 0 := rfl

theorem totalCount_cons (f : Folder) (fs : List Folder) (pid : String) :
    totalCount (f :: fs) pid =
      (f.placemarks.filter (fun m => m.id == pid)).length + totalCount fs pid := by
  simp [totalCount]

theorem totalCount_addToFolders (fs : List Folder) (nm : String) (p : Placemark)
    (pid : String) :
    totalCount (addToFolders fs nm p) pid =
      totalCount fs pid +
        (if (fs.any (fun f => f.name == nm)) && (p.id == pid) then 1 else 0) := by
  induction fs with
  | nil => simp [addToFolders, totalCount]
  | cons f rest ih =>
    by_cases hf : (f.name == nm) = true
    · rw [addToFolders, if_pos hf, totalCount_cons, totalCount_cons]
      have hany : ((f :: rest).any (fun f => f.name == nm)) = true := by
        simp [List.any_cons, hf]
      rw [hany]
      simp only [List.filter_append]
      by_cases hp : (p.id == pid) = true
      · simp [hp]
        omega
      · simp [hp, Bool.not_eq_true _ ▸ hp]
    · rw [addToFolders, if_neg hf, totalCount_cons, totalCount_cons, ih]
      have hany : ((f :: rest).any (fun f => f.name == nm)) =
          (rest.any (fun f => f.name == nm)) := by
        simp [List.any_cons, hf]
      rw [hany]
      omega

theorem any_name_addToFolders (fs : List Folder) (nm x : String) (p : Placemark) :
    (addToFolders fs nm p).any (fun f => f.name == x) =
      fs.any (fun f => f.name == x) := by
  have h1 : ∀ gs : List Folder,
      gs.any (fun f => f.name == x) = (gs.map (fun f => f.name)).any (fun n => n == x) := by
    intro gs
    induction gs with
    | nil => rfl
    | cons g tl ih => simp [List.any_cons, ih]
  rw [h1, h1, addToFolders_names]

theorem insertPlaces_totalCount (no_styles : Bool) (rows : List PlaceRow) :
    ∀ (fs : List Folder) (pid : String),
      totalCount (insertPlaces no_styles rows fs) pid =
        totalCount fs pid +
          (rows.filter (fun tup =>
            !excludedRow tup && (fs.any (fun f => f.name == rowFolderName tup)) &&
              (toString tup.id == pid))).length := by
  induction rows with
  | nil => intro fs pid; simp [insertPlaces_nil]
  | cons tup rest ih =>
    intro fs pid
    rw [insertPlaces_cons]
    by_cases hx : excludedRow tup = true
    · rw [if_pos hx, ih]
      have hpred : (!excludedRow tup &&
          (fs.any (fun f => f.name == rowFolderName tup)) &&
          (toString tup.id == pid)) = false := by
        simp [hx]
      rw [List.filter_cons, hpred]
      simp
    · have hx' : excludedRow tup = false := Bool.not_eq_true _ ▸ hx
      rw [if_neg hx, ih, totalCount_addToFolders]
      have hfilter : (rest.filter (fun t =>
          !excludedRow t &&
            ((addToFolders fs (rowFolderName tup) (mkPlacemark no_styles tup)).any
              (fun f => f.name == rowFolderName t)) &&
            (toString t.id == pid))) =
          (rest.filter (fun t =>
            !excludedRow t && (fs.any (fun f => f.name == rowFolderName t)) &&
              (toString t.id == pid))) := by
        apply List.filter_congr
        intro t _
        rw [any_name_addToFolders]
      rw [hfilter]
      have hpid : (mkPlacemark no_styles tup).id = toString tup.id := rfl
      rw [List.filter_cons]
      by_cases hc : (fs.any (fun f => f.name == rowFolderName tup) &&
          (toString tup.id == pid)) = true
      · have hpred : (!excludedRow tup &&
            (fs.any (fun f => f.name == rowFolderName tup)) &&
            (toString tup.id == pid)) = true := by
          simp only [Bool.and_eq_true] at hc ⊢
          exact ⟨⟨by simp [hx'], hc.1⟩, hc.2⟩
        rw [hpred, hpid, hc]
        simp
        omega
      · have hc' : ((fs.any (fun f => f.name == rowFolderName tup)) &&
            (toString tup.id == pid)) = false := Bool.not_eq_true _ ▸ hc
        have hpred : (!excludedRow tup &&
            (fs.any (fun f => f.name == rowFolderName tup)) &&
            (toString tup.id == pid)) = false := by
          rcases Bool.and_eq_false_iff.mp hc' with h | h
          · simp [h]
          · simp [h]
        rw [hpred, hpid, hc']
        simp

theorem mem_explodeMerge (df : List CatRow) (places : List PlaceRecord)
    (tup : PlaceRow) :
    tup ∈ explodeMerge df places ↔
      ∃ q ∈ places, ∃ c ∈ explodeCats q.primary_category, tup = mkRow df q c := by
  induction places with
  | nil => simp [explodeMerge]
  | cons q rest ih =>
    rw [explodeMerge]
    constructor
    · intro h
      rcases List.mem_append.mp h with hl | hr
      · obtain ⟨c, hc, heq⟩ := List.mem_map.mp hl
        exact ⟨q, List.mem_cons_self q rest, c, hc, heq.symm⟩
      · obtain ⟨q', hq', c, hc, heq⟩ := ih.mp hr
        exact ⟨q', List.mem_cons_of_mem q hq', c, hc, heq⟩
    · rintro ⟨q', hq', c, hc, rfl⟩
      rcases List.mem_cons.mp hq' with rfl | hq''
      · exact List.mem_append_left _ (List.mem_map.mpr ⟨c, hc, rfl⟩)
      · exact List.mem_append_right _ (ih.mpr ⟨q', hq'', c, hc, rfl⟩)

theorem mkRow_id (df : List CatRow) (q : PlaceRecord) (c : Option String) :
    (mkRow df q c).id = q.id := rfl

theorem excludedRow_mkRow (df : List CatRow) (q : PlaceRecord) (c : Option String) :
    excludedRow (mkRow df q c) = excludedPlace q := rfl

theorem mkRow_icon (df : List CatRow) (q : PlaceRecord) (c : Option String)
    (code : String) (h : (mkRow df q c).google_style_icon_code = some code) :
    ∃ r ∈ df, r.google_style_icon_code = some code := by
  unfold mkRow at h
  cases c with
  | none => simp at h
  | some cid =>
    simp only at h
    cases hf : df.find? (fun r => r.category_id == cid) with
    | none => rw [hf] at h; simp at h
    | some r =>
      rw [hf] at h
      exact ⟨r, List.mem_of_find?_eq_some hf, h⟩

theorem mkRow_rootName (df : List CatRow) (q : PlaceRecord) (c : Option String)
    (rname : String) (h : (mkRow df q c).category_root_name = some rname) :
    rname ∈ df.map (fun r => r.category_root_name) := by
  unfold mkRow at h
  cases c with
  | none => simp at h
  | some cid =>
    simp only at h
    cases hf : df.find? (fun r => r.category_id == cid) with
    | none => rw [hf] at h; simp at h
    | some r =>
      rw [hf] at h
      have hr : rname = r.category_root_name := by simpa using h.symm
      subst hr
      exact List.mem_map.mpr ⟨r, List.mem_of_find?_eq_some hf, rfl⟩

theorem rowsOfPlace_length (df : List CatRow) (q : PlaceRecord) :
    (rowsOfPlace df q).length = (explodeCats q.primary_category).length := by
  simp [rowsOfPlace]

theorem rowsOfPlace_id (df : List CatRow) (q : PlaceRecord) (tup : PlaceRow)
    (h : tup ∈ rowsOfPlace df q) : tup.id = q.id := by
  obtain ⟨c, _, rfl⟩ := List.mem_map.mp h
  rfl

theorem filter_explodeMerge (df : List CatRow) (pred : PlaceRow → Bool) :
    ∀ places : List PlaceRecord,
      ((explodeMerge df places).filter pred).length =
        (places.map (fun q => ((rowsOfPlace df q).filter pred).length)).sum := by
  intro places
  induction places with
  | nil => simp [explodeMerge]
  | cons q rest ih =>
    rw [explodeMerge]
    simp [List.filter_append, ih]

theorem initialFolders_names (rootNames : List String) :
    (initialFolders rootNames).map (fun f => f.name) = "uncategorized" :: rootNames := by
  simp [initialFolders, List.map_map]
  exact List.map_id rootNames

theorem initialFolders_totalCount (rootNames : List String) (pid : String) :
    totalCount (initialFolders rootNames) pid = 0 := by
  rw [initialFolders, totalCount_cons]
  simp only [List.filter_nil, List.length_nil, Nat.zero_add]
  induction rootNames with
  | nil => rfl
  | cons n rest ih => rw [List.map_cons, totalCount_cons]; simpa using ih

theorem initialFolders_any_name (rootNames : List String) (x : String)
    (h : x = "uncategorized" ∨ x ∈ rootNames) :
    (initialFolders rootNames).any (fun f => f.name == x) = true := by
  rcases h with rfl | hx
  · simp [initialFolders]
  · rw [initialFolders]
    simp only [List.any_cons, Bool.or_eq_true, List.any_eq_true]
    exact Or.inr ⟨⟨x, x, [], 1⟩, List.mem_map.mpr ⟨x, hx, rfl⟩, by simp⟩

theorem setVisibility_names (vis : Nat) (fs : List Folder) :
    (setVisibility vis fs).map (fun f => f.name) = fs.map (fun f => f.name) := by
  simp [setVisibility, List.map_map]

theorem setVisibility_totalCount (vis : Nat) (fs : List Folder) (pid : String) :
    totalCount (setVisibility vis fs) pid = totalCount fs pid := by
  induction fs with
  | nil => rfl
  | cons f rest ih =>
    rw [setVisibility] at ih ⊢
    rw [List.map_cons, totalCount_cons, totalCount_cons, ih]

theorem setVisibility_mem (vis : Nat) (fs : List Folder) (f' : Folder)
    (h : f' ∈ setVisibility vis fs) : ∃ f ∈ fs, f'.placemarks = f.placemarks := by
  obtain ⟨f, hf, rfl⟩ := List.mem_map.mp h
  exact ⟨f, hf, rfl⟩

theorem cliIconColor_mem (fav que vis : Option Bool) :
    cliIconColor fav que vis ∈ iconColors := by
  rw [cliIconColor]
  by_cases h1 : (fav == some true) = true
  · simp [h1, iconColors]
  · by_cases h2 : (que == some true) = true
    · simp [h1, h2, iconColors]
    · by_cases h3 : (vis == some true) = true
      · simp [h1, h2, h3, iconColors]
      · simp [h1, h2, h3, iconColors]

theorem perCategoryStyles_mem (df : List CatRow) (r : CatRow) (code : String)
    (color : String) (hr : r ∈ df) (hcode : r.google_style_icon_code = some code)
    (hcolor : color ∈ iconColors) :
    (⟨styleId code color⟩ : KmlStyle) ∈ perCategoryStyles df := by
  induction df with
  | nil => simp at hr
  | cons r0 rest ih =>
    rw [perCategoryStyles]
    rcases List.mem_cons.mp hr with rfl | hr'
    · rw [hcode]
      exact List.mem_append_left _ (List.mem_map.mpr ⟨color, hcolor, rfl⟩)
    · exact List.mem_append_right _ (ih hr')

theorem initialFolders_placemarks (rootNames : List String) (f : Folder)
    (h : f ∈ initialFolders rootNames) : f.placemarks = [] := by
  rw [initialFolders] at h
  rcases List.mem_cons.mp h with rfl | h'
  · rfl
  · obtain ⟨n, _, rfl⟩ := List.mem_map.mp h'
    rfl

theorem totalCount_eq_zero (fs : List Folder) (pid : String)
    (h : ∀ f ∈ fs, ∀ m ∈ f.placemarks, m.id ≠ pid) : totalCount fs pid = 0 := by
  induction fs with
  | nil => rfl
  | cons f rest ih =>
    rw [totalCount_cons]
    have h1 : f.placemarks.filter (fun m => m.id == pid) = [] := by
      rw [List.filter_eq_nil_iff]
      intro m hm
      simp only [beq_iff_eq]
      exact h f (List.mem_cons_self f rest) m hm
    rw [h1]
    have h2 := ih (fun f' hf' => h f' (List.mem_cons_of_mem f hf'))
    simp [h2]

theorem sum_single {α : Type} (f : α → Nat) (key : α → String) (pid : String)
    (p : α) (hkey : key p = pid) :
    ∀ places : List α, (places.map key).Nodup → p ∈ places →
      (∀ q ∈ places, key q ≠ pid → f q = 0) →
      (places.map f).sum = f p := by
  intro places
  induction places with
  | nil => intro _ hp; cases hp
  | cons q rest ih =>
    intro hnd hp hzero
    rw [List.map_cons, List.sum_cons]
    rw [List.map_cons, List.nodup_cons] at hnd
    rcases List.mem_cons.mp hp with rfl | hp'
    · have hz : ∀ x ∈ rest.map f, x = 0 := by
        intro x hx
        obtain ⟨q', hq', rfl⟩ := List.mem_map.mp hx
        apply hzero q' (List.mem_cons_of_mem _ hq')
        intro hk
        exact hnd.1 (hkey ▸ hk ▸ List.mem_map.mpr ⟨q', hq', rfl⟩)
      rw [List.sum_eq_zero hz]
      omega
    · have hq0 : f q = 0 := by
        apply hzero q (List.mem_cons_self q rest)
        intro hk
        apply hnd.1
        rw [hk, ← hkey]
        exact List.mem_map.mpr ⟨p, hp', rfl⟩
      rw [hq0, ih hnd.2 hp' (fun q' hq' => hzero q' (List.mem_cons_of_mem _ hq'))]
      omega

/-- C6: a place carrying the `Permanently Closed` flag or the `Lame` flag
contributes no marker at all to the exported document (it is skipped before
any placemark is constructed), regardless of how many categories it
references. -/
theorem c6_excluded_place_no_markers (no_styles default_invisible : Bool)
    (catRecords : List CategoryRecord) (placeRecords : List PlaceRecord)
    (doc : KmlDoc) (p : PlaceRecord)
    (hdoc : write_kml no_styles default_invisible catRecords placeRecords = some doc)
    (hp : p ∈ placeRecords)
    (hexcl : excludedPlace p = true)
    (hids : (placeRecords.map (fun q => toString q.id)).Nodup) :
    (∀ f ∈ doc.folders, ∀ m ∈ f.placemarks, m.id ≠ toString p.id) ∧
    countPlacemarks doc (toString p.id) = 0 := by
  cases hmap : get_root_category_mapping catRecords with
  | none =>
    rw [write_kml_none _ _ _ _ hmap] at hdoc
    exact absurd hdoc (by simp)
  | some df =>
    rw [write_kml_some _ _ _ _ df hmap] at hdoc
    obtain rfl := Option.some.inj hdoc
    have hmain : ∀ f ∈ (buildDoc no_styles default_invisible df placeRecords).folders,
        ∀ m ∈ f.placemarks, m.id ≠ toString p.id := by
      intro f hf m hm
      obtain ⟨f0, hf0, hpl⟩ := setVisibility_mem _ _ f hf
      rw [hpl] at hm
      rcases insertPlaces_mem no_styles _ _ f0 m hf0 hm with
        ⟨f1, hf1, hm1⟩ | ⟨tup, htup, hxt, rfl⟩
      · rw [initialFolders_placemarks _ f1 hf1] at hm1
        simp at hm1
      · obtain ⟨q, hq, c, _, rfl⟩ := (mem_explodeMerge df placeRecords tup).mp htup
        intro hid
        have hmid : (mkPlacemark no_styles (mkRow df q c)).id = toString q.id := rfl
        rw [hmid] at hid
        have hqp : q = p := List.inj_on_of_nodup_map hids hq hp hid
        rw [excludedRow_mkRow, hqp, hexcl] at hxt
        exact Bool.noConfusion hxt
    exact ⟨hmain, totalCount_eq_zero _ _ hmain⟩

theorem c6_witness :
    excludedPlace c6Place = true ∧ countPlacemarks c6Doc "1" = 0 :=
  ⟨by decide,
    (c6_excluded_place_no_markers false false exampleRecords [c6Place] c6Doc c6Place
      (by decide) (by decide) (by decide) (by decide)).2⟩

/-- C7 counterexample: on the category table `A (root), B → A, C → A` and a
place referencing `B` and `C`, the deduplicated resolved-root set is the
single root `{A}`, yet the export emits two markers for the place (both in
`A`'s folder) — refuting "exactly one marker per resolved root category". -/
theorem c7_counterexample :
    get_root_categories (get_category_tree c7Records) ["B", "C"]
      (walkBound (get_category_tree c7Records)) = some ["A"] ∧
    countPlacemarks c7Doc "1" = 2 ∧
    countInFolder c7Doc "CatA" "1" = 2 := by
  decide

/-- C7 (amended): for every non-excluded place the export emits exactly one
marker per exploded category reference — `(explodeCats refs).length` markers
in total, i.e. one per referenced category (one `Uncategorized` marker when
there are no references), each filed under the folder of that reference's
resolved root; this equals one marker per resolved root only when the
referenced categories have pairwise distinct roots.  In particular a place
referencing two categories whose roots are `A` and `D` produces exactly two
markers, one filed in each corresponding folder. -/
theorem c7_amended_marker_per_reference (no_styles default_invisible : Bool)
    (catRecords : List CategoryRecord) (placeRecords : List PlaceRecord)
    (doc : KmlDoc) (p : PlaceRecord)
    (hdoc : write_kml no_styles default_invisible catRecords placeRecords = some doc)
    (hp : p ∈ placeRecords)
    (hexcl : excludedPlace p = false)
    (hids : (placeRecords.map (fun q => toString q.id)).Nodup) :
    countPlacemarks doc (toString p.id) = (explodeCats p.primary_category).length ∧
    countInFolder adDoc "CatA" "1" = 1 ∧
    countInFolder adDoc "CatD" "1" = 1 ∧
    countPlacemarks adDoc "1" = 2 := by
  refine ⟨?_, by decide, by decide, by decide⟩
  cases hmap : get_root_category_mapping catRecords with
  | none =>
    rw [write_kml_none _ _ _ _ hmap] at hdoc
    exact absurd hdoc (by simp)
  | some df =>
    rw [write_kml_some _ _ _ _ df hmap] at hdoc
    obtain rfl := Option.some.inj hdoc
    have hcount : countPlacemarks (buildDoc no_styles default_invisible df placeRecords)
        (toString p.id) =
        ((explodeMerge df placeRecords).filter (fun tup =>
          !excludedRow tup &&
            ((initialFolders (uniqueFirst (df.map (fun r => r.category_root_name)))).any
              (fun f => f.name == rowFolderName tup)) &&
            (toString tup.id == toString p.id))).length := by
      show totalCount (setVisibility _ _) _ = _
      rw [setVisibility_totalCount, insertPlaces_totalCount, initialFolders_totalCount]
      omega
    rw [hcount, filter_explodeMerge]
    have hzero : ∀ q ∈ placeRecords, toString q.id ≠ toString p.id →
        ((rowsOfPlace df q).filter (fun tup =>
          !excludedRow tup &&
            ((initialFolders (uniqueFirst (df.map (fun r => r.category_root_name)))).any
              (fun f => f.name == rowFolderName tup)) &&
            (toString tup.id == toString p.id))).length = 0 := by
      intro q _ hkq
      have hnil : (rowsOfPlace df q).filter (fun tup =>
          !excludedRow tup &&
            ((initialFolders (uniqueFirst (df.map (fun r => r.category_root_name)))).any
              (fun f => f.name == rowFolderName tup)) &&
            (toString tup.id == toString p.id)) = [] := by
        rw [List.filter_eq_nil_iff]
        intro tup htup
        have hid : toString tup.id = toString q.id := by rw [rowsOfPlace_id df q tup htup]
        have hfalse : (toString tup.id == toString p.id) = false := by
          rw [beq_eq_false_iff_ne, hid]
          exact hkq
        simp [hfalse]
      rw [hnil]
      rfl
    rw [sum_single (fun q => ((rowsOfPlace df q).filter (fun tup =>
          !excludedRow tup &&
            ((initialFolders (uniqueFirst (df.map (fun r => r.category_root_name)))).any
              (fun f => f.name == rowFolderName tup)) &&
            (toString tup.id == toString p.id))).length)
        (fun q => toString q.id) (toString p.id) p rfl placeRecords hids hp hzero]
    have hfull : (rowsOfPlace df p).filter (fun tup =>
        !excludedRow tup &&
          ((initialFolders (uniqueFirst (df.map (fun r => r.category_root_name)))).any
            (fun f => f.name == rowFolderName tup)) &&
          (toString tup.id == toString p.id)) = rowsOfPlace df p := by
      rw [List.filter_eq_self]
      intro tup htup
      obtain ⟨c, _, rfl⟩ := List.mem_map.mp htup
      have h1 : excludedRow (mkRow df p c) = false := by
        rw [excludedRow_mkRow]
        exact hexcl
      have h2 : ((initialFolders (uniqueFirst (df.map (fun r => r.category_root_name)))).any
          (fun f => f.name == rowFolderName (mkRow df p c))) = true := by
        cases hroot : (mkRow df p c).category_root_name with
        | none =>
          have hn : rowFolderName (mkRow df p c) = "uncategorized" := by
            rw [rowFolderName, hroot]
          rw [hn]
          exact initialFolders_any_name _ _ (Or.inl rfl)
        | some rname =>
          have hn : rowFolderName (mkRow df p c) = rname := by
            rw [rowFolderName, hroot]
          rw [hn]
          refine initialFolders_any_name _ _ (Or.inr ?_)
          exact (mem_uniqueFirst _ _).mpr (mkRow_rootName df p c rname hroot)
      have h3 : (toString (mkRow df p c).id == toString p.id) = true := by
        rw [mkRow_id]
        simp
      simp [h1, h2, h3]
    rw [hfull, rowsOfPlace_length]

theorem c7_witness :
    excludedPlace adPlace = false ∧ countPlacemarks adDoc "1" = 2 := by
  have h := c7_amended_marker_per_reference false false adRecords [adPlace] adDoc adPlace
    (by decide) (by decide) (by decide) (by decide)
  exact ⟨by decide, h.1.trans (by decide)⟩

theorem placeStyleUrl_no_styles (tup : PlaceRow) :
    placeStyleUrl true tup = "#" ++ fallbackStyleId := by
  cases htup : tup.google_style_icon_code <;> simp [placeStyleUrl, htup]

theorem placeStyleUrl_no_icon (n : Bool) (tup : PlaceRow)
    (h : tup.google_style_icon_code = none) :
    placeStyleUrl n tup = "#" ++ fallbackStyleId := by
  cases n <;> simp [placeStyleUrl, h]

/-- C8: whenever `--no-styles` is set, or a row's icon code is absent, the
marker receives the one fixed fallback style reference
`#icon-1899-757575-nodesc`; consequently with `--no-styles` every marker in
the exported document carries that single fallback style regardless of its
flags or icon code. -/
theorem c8_no_styles_fallback (default_invisible : Bool)
    (catRecords : List CategoryRecord) (placeRecords : List PlaceRecord)
    (doc : KmlDoc)
    (hdoc : write_kml true default_invisible catRecords placeRecords = some doc) :
    (∀ tup : PlaceRow, placeStyleUrl true tup = "#" ++ fallbackStyleId) ∧
    (∀ (n : Bool) (tup : PlaceRow), tup.google_style_icon_code = none →
      placeStyleUrl n tup = "#" ++ fallbackStyleId) ∧
    (∀ f ∈ doc.folders, ∀ m ∈ f.placemarks, m.styleUrl = "#" ++ fallbackStyleId) ∧
    markersAllFallback doc = true := by
  have hmarkers : ∀ f ∈ doc.folders, ∀ m ∈ f.placemarks,
      m.styleUrl = "#" ++ fallbackStyleId := by
    cases hmap : get_root_category_mapping catRecords with
    | none =>
      rw [write_kml_none _ _ _ _ hmap] at hdoc
      exact absurd hdoc (by simp)
    | some df =>
      rw [write_kml_some _ _ _ _ df hmap] at hdoc
      obtain rfl := Option.some.inj hdoc
      intro f hf m hm
      obtain ⟨f0, hf0, hpl⟩ := setVisibility_mem _ _ f hf
      rw [hpl] at hm
      rcases insertPlaces_mem true _ _ f0 m hf0 hm with
        ⟨f1, hf1, hm1⟩ | ⟨tup, _, _, rfl⟩
      · rw [initialFolders_placemarks _ f1 hf1] at hm1
        simp at hm1
      · exact placeStyleUrl_no_styles tup
  refine ⟨placeStyleUrl_no_styles, placeStyleUrl_no_icon, hmarkers, ?_⟩
  rw [markersAllFallback, List.all_eq_true]
  intro f hf
  rw [List.all_eq_true]
  intro m hm
  exact beq_iff_eq.mpr (hmarkers f hf m hm)

theorem c8_witness : markersAllFallback c8Doc = true :=
  (c8_no_styles_fallback false exampleRecords [c8Place] c8Doc (by decide)).2.2.2

/-- C9 counterexample: with the category table containing the single root
`CatA` and zero places, the assembled document already contains a folder
named `CatA` (created eagerly, although no place was ever inserted) and its
reserved folder is literally named `"uncategorized"`, not `"Uncategorized"`
— refuting both the literal sentinel name and the lazy creation of
non-reserved folders. -/
theorem c9_counterexample :
    c9Doc.folders.map (fun f => f.name) = ["uncategorized", "CatA"] ∧
    "Uncategorized" ∉ c9Doc.folders.map (fun f => f.name) ∧
    "CatA" ∈ c9Doc.folders.map (fun f => f.name) ∧
    c9Doc.folders.all (fun f => f.placemarks.isEmpty) = true := by
  decide

/-- C9 (amended): the document's folder list is fully determined at
initialisation: the reserved folder literally named `"uncategorized"` first,
then one folder per distinct resolved root-category display name of the
category table, in the table's first-seen order — all created eagerly,
independently of the places (the same folders exist for an empty place
list). -/
theorem c9_amended_folders_eager (no_styles default_invisible : Bool)
    (catRecords : List CategoryRecord) (placeRecords : List PlaceRecord)
    (doc : KmlDoc) (df : List CatRow)
    (hdoc : write_kml no_styles default_invisible catRecords placeRecords = some doc)
    (hmap : get_root_category_mapping catRecords = some df) :
    doc.folders.map (fun f => f.name) =
      "uncategorized" :: uniqueFirst (df.map (fun r => r.category_root_name)) ∧
    (∀ doc', write_kml no_styles default_invisible catRecords [] = some doc' →
      doc'.folders.map (fun f => f.name) = doc.folders.map (fun f => f.name)) := by
  rw [write_kml_some _ _ _ _ df hmap] at hdoc
  obtain rfl := Option.some.inj hdoc
  have hnames : ∀ rows : List PlaceRecord,
      (buildDoc no_styles default_invisible df rows).folders.map (fun f => f.name) =
        "uncategorized" :: uniqueFirst (df.map (fun r => r.category_root_name)) := by
    intro rows
    show (setVisibility _ (insertPlaces _ _ _)).map (fun f => f.name) = _
    rw [setVisibility_names, insertPlaces_names, initialFolders_names]
  refine ⟨hnames placeRecords, ?_⟩
  intro doc' hdoc'
  rw [write_kml_some _ _ _ _ df hmap] at hdoc'
  obtain rfl := Option.some.inj hdoc'
  rw [hnames [], hnames placeRecords]

theorem c9_witness :
    c9Doc.folders.map (fun f => f.name) =
      "uncategorized" :: uniqueFirst (c9Df.map (fun r => r.category_root_name)) :=
  (c9_amended_folders_eager false false c9Records [] c9Doc c9Df (by decide) (by decide)).1

/-- C10: in every assembled document the fallback style is always defined;
with styles enabled a style is defined for every (icon code, colour band)
pair over all four bands for every categories-dataframe row with a present
icon code; and every marker's style reference string is `"#"` followed by
the id of some style definition appended to the root container — no marker
references an undefined style. -/
theorem c10_marker_styles_defined (no_styles default_invisible : Bool)
    (catRecords : List CategoryRecord) (placeRecords : List PlaceRecord)
    (doc : KmlDoc)
    (hdoc : write_kml no_styles default_invisible catRecords placeRecords = some doc) :
    (∃ s ∈ doc.styles, s.id = fallbackStyleId) ∧
    (∀ df, get_root_category_mapping catRecords = some df → no_styles = false →
      ∀ r ∈ df, ∀ code, r.google_style_icon_code = some code →
        ∀ color ∈ iconColors, ∃ s ∈ doc.styles, s.id = styleId code color) ∧
    (∀ f ∈ doc.folders, ∀ m ∈ f.placemarks, ∃ s ∈ doc.styles,
      m.styleUrl = "#" ++ s.id) ∧
    stylesCoverMarkers doc = true := by
  cases hmap : get_root_category_mapping catRecords with
  | none =>
    rw [write_kml_none _ _ _ _ hmap] at hdoc
    exact absurd hdoc (by simp)
  | some df =>
    rw [write_kml_some _ _ _ _ df hmap] at hdoc
    obtain rfl := Option.some.inj hdoc
    have hstyles : (buildDoc no_styles default_invisible df placeRecords).styles =
        styleDefs no_styles df := rfl
    have hfallback : (⟨fallbackStyleId⟩ : KmlStyle) ∈ styleDefs no_styles df :=
      List.mem_cons_self _ _
    have hpair : no_styles = false → ∀ r ∈ df, ∀ code,
        r.google_style_icon_code = some code → ∀ color ∈ iconColors,
        (⟨styleId code color⟩ : KmlStyle) ∈ styleDefs no_styles df := by
      intro hns r hr code hcode color hcolor
      subst hns
      rw [styleDefs, if_neg (by simp)]
      exact List.mem_cons_of_mem _ (perCategoryStyles_mem df r code color hr hcode hcolor)
    have hmarkers : ∀ f ∈ (buildDoc no_styles default_invisible df placeRecords).folders,
        ∀ m ∈ f.placemarks, ∃ s ∈ styleDefs no_styles df,
          m.styleUrl = "#" ++ s.id := by
      intro f hf m hm
      obtain ⟨f0, hf0, hpl⟩ := setVisibility_mem _ _ f hf
      rw [hpl] at hm
      rcases insertPlaces_mem no_styles _ _ f0 m hf0 hm with
        ⟨f1, hf1, hm1⟩ | ⟨tup, htup, _, rfl⟩
      · rw [initialFolders_placemarks _ f1 hf1] at hm1
        simp at hm1
      · have hurl : (mkPlacemark no_styles tup).styleUrl = placeStyleUrl no_styles tup := rfl
        rcases Bool.eq_false_or_eq_true no_styles with hns | hns
        · subst hns
          refine ⟨⟨fallbackStyleId⟩, hfallback, ?_⟩
          rw [hurl, placeStyleUrl_no_styles]
        · subst hns
          cases hic : tup.google_style_icon_code with
          | none =>
            refine ⟨⟨fallbackStyleId⟩, hfallback, ?_⟩
            rw [hurl, placeStyleUrl_no_icon false tup hic]
          | some code =>
            obtain ⟨q, hq, c, hc, rfl⟩ := (mem_explodeMerge df placeRecords tup).mp htup
            obtain ⟨r, hr, hrcode⟩ := mkRow_icon df q c code hic
            refine ⟨⟨styleId code (cliIconColor (mkRow df q c).is_favorite
              (mkRow df q c).is_queued (mkRow df q c).is_visited)⟩,
              hpair rfl r hr code hrcode _ (cliIconColor_mem _ _ _), ?_⟩
            rw [hurl]
            simp [placeStyleUrl, hic]
    refine ⟨⟨⟨fallbackStyleId⟩, hfallback, rfl⟩, ?_, hmarkers, ?_⟩
    · intro df' hmap' hns r hr code hcode color hcolor
      have hdf : df' = df := (Option.some.inj hmap').symm
      subst hdf
      exact ⟨⟨styleId code color⟩, hpair hns r hr code hcode color hcolor, rfl⟩
    · rw [stylesCoverMarkers, List.all_eq_true]
      intro f hf
      rw [List.all_eq_true]
      intro m hm
      obtain ⟨s, hs, hurl⟩ := hmarkers f hf m hm
      rw [List.any_eq_true]
      exact ⟨s, hs, beq_iff_eq.mpr hurl⟩

theorem c10_witness : stylesCoverMarkers c10Doc = true :=
  (c10_marker_styles_defined false false exampleRecords [c10Place] c10Doc (by decide)).2.2.2
